import Mathlib

/-!
Shallow embedding of the Shadow simulator topology router
(src/src/topology/shd-topology.c) and proofs about its documented
behaviour.  Real-valued graph attributes (latency, jitter, packetloss)
are modelled as rationals; igraph error returns and NULL results are
modelled with `Option`.
-/

attribute [local semireducible] Rat.add Rat.mul Rat.inv Rat.sub

namespace Shadow

/-- A graph vertex with the GraphML attributes read by the code:
`id`, `type`, and the PoI attributes `ip`, `geocode`, `bandwidthup`,
`bandwidthdown`, `packetloss`. -/
structure Vertex where
  vid : String
  vtype : String
  vip : String
  geocode : String
  bandwidthup : ℚ
  bandwidthdown : ℚ
  packetloss : ℚ
deriving DecidableEq

/-- A directed graph edge with the attributes read by the code:
`latency`, `jitter`, `packetloss`.  Endpoints are vertex indices. -/
structure GEdge where
  esrc : Nat
  edst : Nat
  latency : ℚ
  jitter : ℚ
  packetloss : ℚ
deriving DecidableEq

/-- The imported igraph graph: vertices indexed by position, directed
edges. -/
structure Graph where
  vertices : List Vertex
  edges : List GEdge
deriving DecidableEq

/-- The immutable Path record produced by `path_new(latency, reliability)`. -/
structure Path where
  latency : ℚ
  reliability : ℚ
deriving DecidableEq

/-- An address: stable 32-bit ShadowID plus a virtual IP.  The virtual-IP
table is keyed by `aip` (`address_toNetworkIP`), the path cache by
`shadowID` (`address_getID`). -/
structure Address where
  shadowID : Nat
  aip : Nat
deriving DecidableEq

/-- `igraph_get_eid(&graph, &eid, from, to, directed=TRUE)`: find the
(first) directed edge from `u` to `v`; `none` models a non-success
return code. -/
def getEdge (g : Graph) (u v : Nat) : Option GEdge :=
  g.edges.find? (fun e => e.esrc == u && e.edst == v)

/-- The out-neighbours of vertex `u`, in edge order. -/
def successors (g : Graph) (u : Nat) : List Nat :=
  (g.edges.filter (fun e => e.esrc == u)).map (fun e => e.edst)

/-- There is a directed edge from `u` to `v`. -/
def hasEdge (g : Graph) (u v : Nat) : Bool :=
  (getEdge g u v).isSome

/-- All simple directed paths from `s` to `d` avoiding `visited`,
each returned as its vertex sequence starting at `s` and ending at `d`.
`fuel` bounds the number of vertices on a path. -/
def simplePathsAux (g : Graph) : Nat → Nat → Nat → List Nat → List (List Nat)
  | 0, _, _, _ => []
  | Nat.succ fuel, s, d, visited =>
    if s = d then [[s]]
    else
      ((successors g s).filter (fun v => !(visited.contains v))).flatMap
        (fun v => (simplePathsAux g fuel v d (s :: visited)).map (fun p => s :: p))

/-- All simple directed paths from `s` to `d` in `g`. -/
def simplePaths (g : Graph) (s d : Nat) : List (List Nat) :=
  simplePathsAux g (g.vertices.length + 1) s d []

/-- Total weight of a vertex sequence under the `latency` edge weights
(the `edgeWeights` vector extracted by `_topology_extractEdgeWeights`). -/
def pathWeight (g : Graph) : List Nat → ℚ
  | [] => 0
  | [_] => 0
  | u :: v :: rest =>
    (match getEdge g u v with
     | some e => e.latency
     | none => 0) + pathWeight g (v :: rest)

/-- Select a minimum-weight element of a list of vertex sequences,
preferring earlier entries on ties. -/
def chooseMin (g : Graph) : List (List Nat) → Option (List Nat)
  | [] => none
  | p :: rest =>
    match chooseMin g rest with
    | none => some p
    | some q => if pathWeight g q < pathWeight g p then some q else some p

/-- `igraph_get_shortest_paths_dijkstra` over the `latency` edge weights:
on valid vertex indices it succeeds, returning a minimum-latency vertex
sequence from `s` to `d`, or the empty sequence when `d` is unreachable
(igraph warns but still reports success there).  An invalid vertex index
yields a non-success code, modelled as `none`. -/
def dijkstra (g : Graph) (s d : Nat) : Option (List Nat) :=
  if s < g.vertices.length && d < g.vertices.length then
    some (match chooseMin g (simplePaths g s d) with
          | some vs => vs
          | none => [])
  else none

/-- `VAN(&graph, "packetloss", i)` for a vertex index. -/
def vertexPloss (g : Graph) (i : Nat) : ℚ :=
  match g.vertices.get? i with
  | some v => v.packetloss
  | none => 0

/-- Resolve every consecutive edge of a vertex sequence via
`igraph_get_eid`; `none` models the early `return FALSE` taken when an
edge lookup returns a non-success code. -/
def walkEdges (g : Graph) : List Nat → Option (List GEdge)
  | [] => some []
  | [_] => some []
  | u :: v :: rest => do
    let e ← getEdge g u v
    let es ← walkEdges g (v :: rest)
    pure (e :: es)

/-- Lines 518-584 of `_topology_computePath`: given the vertex sequence
returned by Dijkstra, accumulate total latency and reliability.
`totalReliability` starts from the source- and destination-vertex loss
complements; with fewer than two vertices the latency is hard-coded to
`1.0`, otherwise each consecutive edge contributes its latency to the
sum and its loss complement to the product. -/
def computePathFromVertices (g : Graph) (src dst : Nat) (vs : List Nat) : Option Path :=
  let base : ℚ := (1 - vertexPloss g src) * (1 - vertexPloss g dst)
  if vs.length < 2 then
    some { latency := 1, reliability := base }
  else
    match walkEdges g vs with
    | none => none
    | some es =>
      some { latency := (es.map (fun e => e.latency)).sum,
             reliability := base * (es.map (fun e => 1 - e.packetloss)).prod }

/-- The topology state: the loaded graph, the extracted edge-weight
vector, the virtualIP attachment table (ip → vertex index) and the
two-level path cache (srcID → dstID → Path). -/
structure Topology where
  graph : Graph
  edgeWeights : List ℚ
  virtualIP : List (Nat × Nat)
  pathCache : List (Nat × List (Nat × Path))
deriving DecidableEq

/-- Lookup in the virtualIP table (`g_hash_table_lookup_extended`). -/
def vipLookup (t : Topology) (ip : Nat) : Option Nat :=
  (t.virtualIP.find? (fun p => p.1 == ip)).map (fun p => p.2)

/-- `_topology_getConnectedVertexIndex`: find the vertex the address was
attached to; `none` models the `-1` returned (with a warning) when the
address is absent from the table. -/
def getConnectedVertexIndex (t : Topology) (a : Address) : Option Nat :=
  vipLookup t a.aip

/-- `_topology_getPathFromCache`: two-level lookup keyed by ShadowIDs;
`none` on a miss. -/
def cacheLookup (t : Topology) (src dst : Address) : Option Path :=
  match t.pathCache.find? (fun q => q.1 == src.shadowID) with
  | none => none
  | some (_, inner) => (inner.find? (fun q => q.1 == dst.shadowID)).map (fun q => q.2)

/-- `_topology_storePathInCache`: create the source's inner table on the
fly and `g_hash_table_replace` the destination entry. -/
def cacheStore (t : Topology) (src dst : Address) (p : Path) : Topology :=
  let inner :=
    match t.pathCache.find? (fun q => q.1 == src.shadowID) with
    | none => []
    | some (_, l) => l
  let inner2 := (dst.shadowID, p) :: inner.filter (fun q => !(q.1 == dst.shadowID))
  { t with pathCache :=
      (src.shadowID, inner2) :: t.pathCache.filter (fun q => !(q.1 == src.shadowID)) }

/-- `_topology_computePath`: resolve both endpoints in the virtualIP
table, run Dijkstra, and fold the vertex sequence into a `Path`.
`none` models every error path (unattached endpoint, non-success from
`igraph_get_shortest_paths_dijkstra`, non-success from
`igraph_get_eid`), all of which return NULL/FALSE to the caller. -/
def computePath (t : Topology) (src dst : Address) : Option Path :=
  match getConnectedVertexIndex t src, getConnectedVertexIndex t dst with
  | some s, some d =>
    (match dijkstra t.graph s d with
     | none => none
     | some vs => computePathFromVertices t.graph s d vs)
  | _, _ => none

/-- `_topology_getPathEntry`: cache hit, or compute and (on success
only) store.  Returns the result together with the updated state. -/
def getPathEntry (t : Topology) (src dst : Address) : Option Path × Topology :=
  match cacheLookup t src dst with
  | some p => (some p, t)
  | none =>
    match computePath t src dst with
    | some p => (some p, cacheStore t src dst p)
    | none => (none, t)

/-- `topology_getLatency`: the path's latency, or `-1` on failure. -/
def topology_getLatency (t : Topology) (src dst : Address) : ℚ × Topology :=
  match getPathEntry t src dst with
  | (some p, t2) => (p.latency, t2)
  | (none, t2) => (-1, t2)

/-- `topology_getReliability`: the path's reliability, or `-1` on failure. -/
def topology_getReliability (t : Topology) (src dst : Address) : ℚ × Topology :=
  match getPathEntry t src dst with
  | (some p, t2) => (p.reliability, t2)
  | (none, t2) => (-1, t2)

/-- `topology_isRoutable`: `getLatency > -1`. -/
def topology_isRoutable (t : Topology) (src dst : Address) : Bool × Topology :=
  match topology_getLatency t src dst with
  | (l, t2) => (decide (l > -1), t2)

/-- `needle` occurs as a contiguous substring of `hay`
(`g_strstr_len(hay, -1, needle)`). -/
def containsSub (needle hay : List Char) : Bool :=
  hay.tails.any (fun s => needle.isPrefixOf s)

/-- A vertex is a point of interest iff its `id` attribute contains the
token `poi` (`_topology_connectHelperHook` / the vertex check hook). -/
def isPoi (v : Vertex) : Bool :=
  containsSub "poi".toList v.vid.toList

/-- `_topology_connectHelperHook` over all vertices: the candidate queue
holds every PoI vertex index in iteration order.  The hint filters are
stubbed in the source (`XXX FIXME fix this to properly filter!`), so the
hints play no role. -/
def connectCandidates (g : Graph) : List Nat :=
  (List.range g.vertices.length).filter
    (fun i => match g.vertices.get? i with
              | some v => isPoi v
              | none => false)

/-- `(guint) round(numCandidates * randomDouble)`: C `round` is
round-half-away-from-zero, which for non-negative arguments is
`⌊x + 1/2⌋`. -/
def roundCount (n : Nat) (u : ℚ) : Nat :=
  (Int.floor ((n : ℚ) * u + 1 / 2)).toNat

/-- `GINT_TO_POINTER` (line 675): the candidate queue stores the vertex
index itself cast to a pointer, so index 0 is stored as the NULL
pointer and is indistinguishable from an empty pop. -/
def gintToPointer (i : Nat) : Option Nat :=
  if i = 0 then none else some i

/-- Lines 701-718 of `topology_connect`: with more than one candidate,
pop `round(N·u)` entries off the candidate queue and keep the last one
popped; with one candidate, pop the head.  The queue entries are the
candidate vertex indices cast to pointers (`GINT_TO_POINTER`, line
675), so this models the value of `vertexIndexPtr` when the code
reaches `utility_assert(vertexIndexPtr)` at line 718: `none` (NULL)
when nothing was popped (`round(N·u) = 0`), when the queue was
exhausted before the last pop, and also whenever the last-popped
candidate is vertex index 0, since `GINT_TO_POINTER(0)` is NULL; in
all those cases the assertion fails.  A nonzero candidate index
survives as `some`. -/
def selectCandidate (cands : List Nat) (u : ℚ) : Option Nat :=
  if cands.length > 1 then
    if roundCount cands.length u = 0 then none
    else if roundCount cands.length u ≤ cands.length then
      match cands.get? (roundCount cands.length u - 1) with
      | some i => gintToPointer i
      | none => none
    else none
  else
    match cands.head? with
    | some i => gintToPointer i
    | none => none

/-- `topology_connect` up to its post-selection assertion: build the
candidate queue, abort (`utility_assert(numCandidates > 0)`, line 699)
when it is empty, then select a candidate from the caller's RNG draw
`u`.  `none` models an assertion abort (empty candidate set, or
`vertexIndexPtr` left NULL at line 718).  On `some i` the assertion
passes holding the nonzero pointer value `i`; the code then reads the
selected index by dereferencing that integer-as-pointer
(`vertexIndex = *vertexIndexPtr`, line 719), an invalid access, so the
continuation (mapping record, bandwidth reads) is not modelled. -/
def topology_connect (t : Topology) (a : Address) (u : ℚ) : Option Nat :=
  let cands := connectCandidates t.graph
  if cands.length = 0 then none
  else selectCandidate cands u

/-- `topology_disconnect`: remove the address's ip from the virtualIP
table under the writer lock; nothing else is touched. -/
def topology_disconnect (t : Topology) (a : Address) : Topology :=
  { t with virtualIP := t.virtualIP.filter (fun p => !(p.1 == a.aip)) }

/-- Vertex `v` can reach vertex `u` along directed edges: there is at
least one simple directed path.  This is the reachability notion
underlying `igraph_is_connected(..., IGRAPH_STRONG)` and
`igraph_clusters(..., IGRAPH_STRONG)`. -/
def reaches (g : Graph) (u v : Nat) : Bool :=
  !(simplePaths g u v).isEmpty

/-- `igraph_is_connected(&graph, ..., IGRAPH_STRONG)`: every vertex
reaches every other via a directed path. -/
def isStronglyConnectedB (g : Graph) : Bool :=
  (List.range g.vertices.length).all
    (fun u => (List.range g.vertices.length).all (fun v => reaches g u v))

/-- The strongly connected component of `v`: all vertices mutually
reachable with `v`. -/
def sccOf (g : Graph) (v : Nat) : List Nat :=
  (List.range g.vertices.length).filter (fun u => reaches g v u && reaches g u v)

/-- `igraph_clusters(..., IGRAPH_STRONG)`: the number of distinct
strongly connected components. -/
def clusterCount (g : Graph) : Nat :=
  ((List.range g.vertices.length).map (sccOf g)).dedup.length

/-- `_topology_checkGraphProperties`, lines 90-120: the check fails
(`return FALSE`) iff `!isConnected || clusterCount > 1`; the attribute
listing that follows only logs. -/
def checkGraphProperties (g : Graph) : Bool :=
  isStronglyConnectedB g && decide (clusterCount g ≤ 1)

/-- `topology_new`: load the graph, validate it, extract edge weights;
on any failure free the partial state and return NULL (`none`).  The
vertex/edge iteration and weight extraction fail only on igraph
internal errors, so on an in-memory graph the property check is the
deciding stage. -/
def topology_new (g : Graph) : Option Topology :=
  if checkGraphProperties g then
    some { graph := g,
           edgeWeights := g.edges.map (fun e => e.latency),
           virtualIP := [],
           pathCache := [] }
  else none

/-- A vertex sequence is a walk: every consecutive pair is joined by a
directed edge. -/
def isWalk (g : Graph) : List Nat → Bool
  | [] => true
  | [_] => true
  | u :: v :: rest => hasEdge g u v && isWalk g (v :: rest)

/-- Scenario 2 of the spec: PoI vertex A with packetloss 0.1. -/
def exVertexA : Vertex := ⟨"poiA", "relay", "11.0.0.1", "US", 100, 100, 1 / 10⟩

/-- Scenario 2 of the spec: PoI vertex B with packetloss 0.2. -/
def exVertexB : Vertex := ⟨"poiB", "relay", "11.0.0.2", "DE", 100, 100, 1 / 5⟩

/-- Scenario 2 of the spec: edge A→B with latency 10 and packetloss 0.05. -/
def exEdgeAB : GEdge := ⟨0, 1, 10, 0, 1 / 20⟩

/-- Reverse edge B→A keeping the graph strongly connected. -/
def exEdgeBA : GEdge := ⟨1, 0, 10, 0, 1 / 20⟩

/-- The two-PoI example graph of spec scenarios 1-2. -/
def exGraph : Graph := ⟨[exVertexA, exVertexB], [exEdgeAB, exEdgeBA]⟩

/-- Example host h1 (ShadowID 10, virtual IP 1). -/
def exAddrA : Address := ⟨10, 1⟩

/-- Example host h2 (ShadowID 20, virtual IP 2). -/
def exAddrB : Address := ⟨20, 2⟩

/-- Example host h3 (ShadowID 30, virtual IP 3). -/
def exAddrC : Address := ⟨30, 3⟩

/-- An address that is never attached (ShadowID 40, virtual IP 4). -/
def exAddrU : Address := ⟨40, 4⟩

/-- The example topology with h1 attached at vertex A and h2 at vertex B. -/
def exTop : Topology :=
  ⟨exGraph, exGraph.edges.map (fun e => e.latency), [(1, 0), (2, 1)], []⟩

/-- The example topology with h1 and h3 both attached at vertex A. -/
def exTopSame : Topology :=
  ⟨exGraph, exGraph.edges.map (fun e => e.latency), [(1, 0), (3, 0)], []⟩

/-- The state reached from `exTop` by querying h1→h2 (which fills the
path cache) and then detaching both hosts: the virtualIP table is empty
but the cached path survives. -/
def detachedTop : Topology :=
  topology_disconnect
    (topology_disconnect (topology_getLatency exTop exAddrA exAddrB).2 exAddrA)
    exAddrB

/-- A single PoI vertex whose packetloss is 1 (total loss), allowed by
the loader which never range-checks packetloss. -/
def lossyVertex : Vertex := ⟨"poiX", "relay", "10.0.0.1", "US", 100, 100, 1⟩

/-- One-vertex graph holding `lossyVertex`. -/
def lossyGraph : Graph := ⟨[lossyVertex], []⟩

/-- Topology with one host attached to the total-loss vertex. -/
def lossyTop : Topology := ⟨lossyGraph, [], [(1, 0)], []⟩

/-- The example graph with its edges removed: two strongly connected
components, not strongly connected. -/
def discGraph : Graph := ⟨[exVertexA, exVertexB], []⟩

/-- A graph whose only vertex is not a PoI (its `id` lacks the token
`poi`), so the attach candidate queue is empty. -/
def noPoiGraph : Graph := ⟨[⟨"relay1", "relay", "", "", 0, 0, 0⟩], [⟨0, 0, 1, 0, 0⟩]⟩

/-- Topology over `noPoiGraph`. -/
def noPoiTop : Topology := ⟨noPoiGraph, noPoiGraph.edges.map (fun e => e.latency), [], []⟩

/-- A corrupt attachment state: the virtualIP table maps IP 1 to vertex
index 5, which does not exist in the one-vertex graph, so the Dijkstra
primitive reports a non-success code (`IGRAPH_EINVVID`). -/
def badIndexTop : Topology := ⟨⟨[exVertexA], []⟩, [], [(1, 5), (2, 0)], []⟩

lemma hasEdge_of_mem_successors {g : Graph} {u v : Nat}
    (h : v ∈ successors g u) : hasEdge g u v = true := by
  simp only [successors, List.mem_map, List.mem_filter] at h
  obtain ⟨e, ⟨hmem, hsrc⟩, hdst⟩ := h
  simp only [hasEdge, getEdge, Option.isSome_iff_exists]
  have : (fun e => e.esrc == u && e.edst == v) e = true := by
    simp only [Bool.and_eq_true]
    exact ⟨hsrc, by simp [hdst]⟩
  rcases hfind : g.edges.find? (fun e => e.esrc == u && e.edst == v) with _ | e'
  · exact absurd (List.find?_eq_none.mp hfind e hmem this) (by simp)
  · exact ⟨e', hfind⟩

lemma simplePathsAux_sound (g : Graph) :
    ∀ (fuel : Nat) (s d : Nat) (visited : List Nat) (vs : List Nat),
      vs ∈ simplePathsAux g fuel s d visited →
      vs.head? = some s ∧ isWalk g vs = true := by
  intro fuel
  induction fuel with
  | zero => intro s d visited vs h; simp [simplePathsAux] at h
  | succ fuel ih =>
    intro s d visited vs h
    simp only [simplePathsAux] at h
    by_cases hsd : s = d
    · rw [if_pos hsd] at h
      simp only [List.mem_singleton] at h
      subst h
      exact ⟨rfl, rfl⟩
    · rw [if_neg hsd] at h
      simp only [List.mem_flatMap, List.mem_map, List.mem_filter] at h
      obtain ⟨v, ⟨hvsucc, _⟩, p, hp, hvs⟩ := h
      obtain ⟨hhead, hwalk⟩ := ih v d (s :: visited) p hp
      subst hvs
      refine ⟨rfl, ?_⟩
      rcases p with _ | ⟨v', rest⟩
      · simp at hhead
      · simp only [List.head?_cons, Option.some.injEq] at hhead
        subst hhead
        simp only [isWalk, Bool.and_eq_true]
        exact ⟨hasEdge_of_mem_successors hvsucc, hwalk⟩

lemma chooseMin_mem (g : Graph) :
    ∀ (l : List (List Nat)) (p : List Nat), chooseMin g l = some p → p ∈ l := by
  intro l
  induction l with
  | nil => intro p h; simp [chooseMin] at h
  | cons q rest ih =>
    intro p h
    rcases hrest : chooseMin g rest with _ | r
    · simp only [chooseMin, hrest, Option.some.injEq] at h
      subst h; exact List.mem_cons_self _ _
    · simp only [chooseMin, hrest] at h
      by_cases hlt : pathWeight g r < pathWeight g q
      · rw [if_pos hlt] at h
        simp only [Option.some.injEq] at h
        subst h
        exact List.mem_cons_of_mem _ (ih r hrest)
      · rw [if_neg hlt] at h
        simp only [Option.some.injEq] at h
        subst h; exact List.mem_cons_self _ _

lemma walkEdges_isSome_of_isWalk (g : Graph) :
    ∀ (vs : List Nat), isWalk g vs = true → (walkEdges g vs).isSome = true := by
  intro vs
  induction vs with
  | nil => intro _; simp [walkEdges]
  | cons u rest ih =>
    rcases rest with _ | ⟨v, rest'⟩
    · intro _; simp [walkEdges]
    · intro h
      simp only [isWalk, Bool.and_eq_true] at h
      obtain ⟨e, he⟩ := Option.isSome_iff_exists.mp h.1
      obtain ⟨es, hes⟩ := Option.isSome_iff_exists.mp (ih h.2)
      simp [walkEdges, he, hes]

lemma walkEdges_subset (g : Graph) :
    ∀ (vs : List Nat) (es : List GEdge), walkEdges g vs = some es →
      ∀ e ∈ es, e ∈ g.edges := by
  intro vs
  induction vs with
  | nil => intro es h; simp only [walkEdges, Option.some.injEq] at h; subst h; simp
  | cons u rest ih =>
    rcases rest with _ | ⟨v, rest'⟩
    · intro es h; simp only [walkEdges, Option.some.injEq] at h; subst h; simp
    · intro es h
      simp only [walkEdges, Option.bind_eq_bind, Option.bind_eq_some] at h
      obtain ⟨e, he, es', hes', heq⟩ := h
      simp only [pure, Option.some.injEq] at heq
      subst heq
      intro x hx
      rcases List.mem_cons.mp hx with hx | hx
      · subst hx; exact List.mem_of_find?_eq_some he
      · exact ih es' hes' x hx

lemma list_sum_nonneg (l : List ℚ) (h : ∀ x ∈ l, 0 ≤ x) : 0 ≤ l.sum := by
  induction l with
  | nil => simp
  | cons x xs ih =>
    simp only [List.sum_cons]
    have hx := h x (List.mem_cons_self _ _)
    have hxs := ih (fun y hy => h y (List.mem_cons_of_mem _ hy))
    linarith

lemma list_prod_bounds (l : List ℚ) (h : ∀ x ∈ l, 0 ≤ x ∧ x ≤ 1) :
    0 ≤ l.prod ∧ l.prod ≤ 1 := by
  induction l with
  | nil => simp
  | cons x xs ih =>
    simp only [List.prod_cons]
    have hx := h x (List.mem_cons_self _ _)
    have hxs := ih (fun y hy => h y (List.mem_cons_of_mem _ hy))
    constructor
    · exact mul_nonneg hx.1 hxs.1
    · exact mul_le_one₀ hx.2 hxs.1 hxs.2

lemma cacheLookup_cacheStore (t : Topology) (a b : Address) (p : Path) :
    cacheLookup (cacheStore t a b p) a b = some p := by
  simp [cacheLookup, cacheStore, List.find?_cons_of_pos]

lemma getPathEntry_idem (t : Topology) (a b : Address) :
    getPathEntry (getPathEntry t a b).2 a b = getPathEntry t a b := by
  rcases hc : cacheLookup t a b with _ | p
  · rcases hp : computePath t a b with _ | p
    · simp [getPathEntry, hc, hp]
    · have h1 : getPathEntry t a b = (some p, cacheStore t a b p) := by
        simp [getPathEntry, hc, hp]
      rw [h1]
      simp [getPathEntry, cacheLookup_cacheStore]
  · simp [getPathEntry, hc]

lemma dijkstra_self (g : Graph) (v : Nat) (hv : v < g.vertices.length) :
    dijkstra g v v = some [v] := by
  have h1 : simplePaths g v v = [[v]] := by
    simp [simplePaths, simplePathsAux]
  simp [dijkstra, hv, h1, chooseMin]

lemma vertexPloss_complement_bounds (g : Graph) (i : Nat)
    (hi : i < g.vertices.length)
    (hvp : ∀ v ∈ g.vertices, 0 ≤ v.packetloss ∧ v.packetloss ≤ 1) :
    0 ≤ 1 - vertexPloss g i ∧ 1 - vertexPloss g i ≤ 1 := by
  have hw : g.vertices.get? i = some (g.vertices.get ⟨i, hi⟩) :=
    List.get?_eq_get hi
  have hmem : g.vertices.get ⟨i, hi⟩ ∈ g.vertices := List.get_mem _ _ hi
  set w := g.vertices.get ⟨i, hi⟩
  have hb := hvp w hmem
  simp only [vertexPloss, hw]
  constructor <;> linarith [hb.1, hb.2]

lemma find?_key_filter_self (l : List (Nat × Nat)) (j : Nat) :
    (l.filter (fun p => !(p.1 == j))).find? (fun p => p.1 == j) = none := by
  apply List.find?_eq_none.mpr
  intro x hx
  have := (List.mem_filter.mp hx).2
  simp only [Bool.not_eq_true'] at this
  simp [this]

lemma find?_key_filter_other (i j : Nat) (h : i ≠ j) :
    ∀ (l : List (Nat × Nat)),
      (l.filter (fun p => !(p.1 == j))).find? (fun p => p.1 == i)
        = l.find? (fun p => p.1 == i) := by
  intro l
  induction l with
  | nil => rfl
  | cons x xs ih =>
    by_cases hxj : x.1 = j
    · have hfi : (x.1 == i) = false := by
        simp [hxj]
        exact fun he => h he.symm
      rw [List.filter_cons_of_neg (by simp [hxj])]
      rw [List.find?_cons_of_neg _ (by simp [hfi]), ih]
    · rw [List.filter_cons_of_pos (by simp [hxj])]
      by_cases hxi : x.1 = i
      · rw [List.find?_cons_of_pos _ (by simp [hxi]),
            List.find?_cons_of_pos _ (by simp [hxi])]
      · rw [List.find?_cons_of_neg _ (by simp [hxi]),
            List.find?_cons_of_neg _ (by simp [hxi]), ih]

lemma dedup_replicate_length_le (x : List Nat) :
    ∀ (k : Nat), ((List.replicate k x).dedup).length ≤ 1 := by
  intro k
  induction k with
  | zero => simp
  | succ k ih =>
    by_cases hm : x ∈ List.replicate k x
    · rw [List.replicate_succ, List.dedup_cons_of_mem hm]
      exact ih
    · have hk : k = 0 := by
        by_contra hk
        exact hm (List.mem_replicate.mpr ⟨hk, rfl⟩)
      subst hk
      simp

/-- C1: on a successful fresh latency/reliability query between attached
addresses whose shortest path has at least one edge, the reliability is
`(1 − plossSrcVertex) · Π(1 − plossEdge) · (1 − plossDstVertex)` over the
edges of the Dijkstra vertex sequence, and the latency is the sum of the
edge latency attributes. -/
theorem query_formula (t : Topology) (a b : Address) (s d : Nat)
    (vs : List Nat) (es : List GEdge)
    (hs : vipLookup t a.aip = some s) (hd : vipLookup t b.aip = some d)
    (hc : cacheLookup t a b = none)
    (hdij : dijkstra t.graph s d = some vs)
    (hlen : 2 ≤ vs.length)
    (hes : walkEdges t.graph vs = some es) :
    (topology_getReliability t a b).1
      = (1 - vertexPloss t.graph s)
        * (es.map (fun e => 1 - e.packetloss)).prod
        * (1 - vertexPloss t.graph d)
    ∧ (topology_getLatency t a b).1 = (es.map (fun e => e.latency)).sum := by
  have hnl : ¬vs.length < 2 := Nat.not_lt.mpr hlen
  have hcp : computePath t a b
      = some { latency := (es.map (fun e => e.latency)).sum,
               reliability := (1 - vertexPloss t.graph s) * (1 - vertexPloss t.graph d)
                 * (es.map (fun e => 1 - e.packetloss)).prod } := by
    simp [computePath, getConnectedVertexIndex, hs, hd, hdij,
      computePathFromVertices, hnl, hes]
  constructor
  · have : (topology_getReliability t a b).1
        = (1 - vertexPloss t.graph s) * (1 - vertexPloss t.graph d)
          * (es.map (fun e => 1 - e.packetloss)).prod := by
      simp [topology_getReliability, getPathEntry, hc, hcp]
    rw [this]; ring
  · simp [topology_getLatency, getPathEntry, hc, hcp]

/-- C1 witness: spec scenario 2 — source-vertex loss 0.1, destination
loss 0.2, one edge with loss 0.05 and latency 10:
`getReliability = 0.9·0.95·0.8 = 0.684 = 171/250`, `getLatency = 10`. -/
theorem query_formula_witness :
    (topology_getReliability exTop exAddrA exAddrB).1 = 171 / 250
    ∧ (topology_getLatency exTop exAddrA exAddrB).1 = 10 := by
  have h := query_formula exTop exAddrA exAddrB 0 1 [0, 1] [exEdgeAB]
    (by decide) (by decide) rfl (by decide) (by decide) (by decide)
  exact ⟨by rw [h.1]; decide, by rw [h.2]; decide⟩

/-- C2 (amended): for addresses attached to the same valid vertex `v`,
`getLatency = 1.0` and `getReliability = (1 − ploss v)²`; the latter
lies in `(0,1]` whenever `ploss v ∈ [0,1)`, but is `0` when
`ploss v = 1`.  The empty vertex sequence is folded identically. -/
theorem samevertex_query (t : Topology) (a b : Address) (v : Nat)
    (hs : vipLookup t a.aip = some v) (hd : vipLookup t b.aip = some v)
    (hv : v < t.graph.vertices.length) (hc : cacheLookup t a b = none) :
    (topology_getLatency t a b).1 = 1
    ∧ (topology_getReliability t a b).1
        = (1 - vertexPloss t.graph v) * (1 - vertexPloss t.graph v)
    ∧ (0 ≤ vertexPloss t.graph v → vertexPloss t.graph v < 1 →
        0 < (topology_getReliability t a b).1
        ∧ (topology_getReliability t a b).1 ≤ 1)
    ∧ computePathFromVertices t.graph v v []
        = some { latency := 1,
                 reliability := (1 - vertexPloss t.graph v) * (1 - vertexPloss t.graph v) } := by
  have hcp : computePath t a b
      = some { latency := 1,
               reliability := (1 - vertexPloss t.graph v) * (1 - vertexPloss t.graph v) } := by
    simp [computePath, getConnectedVertexIndex, hs, hd, dijkstra_self t.graph v hv,
      computePathFromVertices]
  have hrel : (topology_getReliability t a b).1
      = (1 - vertexPloss t.graph v) * (1 - vertexPloss t.graph v) := by
    simp [topology_getReliability, getPathEntry, hc, hcp]
  refine ⟨?_, hrel, ?_, ?_⟩
  · simp [topology_getLatency, getPathEntry, hc, hcp]
  · intro h0 h1
    rw [hrel]
    constructor
    · have : 0 < 1 - vertexPloss t.graph v := by linarith
      exact mul_pos this this
    · have ha : 1 - vertexPloss t.graph v ≤ 1 := by linarith
      have hb : 0 ≤ 1 - vertexPloss t.graph v := by linarith
      exact mul_le_one₀ ha hb ha
  · simp [computePathFromVertices]

/-- C2 counterexample: the loader never range-checks packetloss, so a
PoI vertex with packetloss 1 is accepted; there `getReliability(a,a)`
is `(1-1)·(1-1) = 0`, which is outside the claimed interval `(0,1]`. -/
theorem samevertex_reliability_cex :
    vipLookup lossyTop exAddrA.aip = some 0
    ∧ (topology_getReliability lossyTop exAddrA exAddrA).1 = 0
    ∧ ¬(0 < (topology_getReliability lossyTop exAddrA exAddrA).1) := by
  decide

/-- C2 witness: h1 and h3 both attached to vertex A (packetloss 0.1):
`getLatency = 1`, `getReliability = 0.9² = 81/100 ∈ (0,1]`. -/
theorem samevertex_query_witness :
    (topology_getLatency exTopSame exAddrA exAddrC).1 = 1
    ∧ (topology_getReliability exTopSame exAddrA exAddrC).1 = 81 / 100
    ∧ 0 < (topology_getReliability exTopSame exAddrA exAddrC).1 := by
  have h := samevertex_query exTopSame exAddrA exAddrC 0
    (by decide) (by decide) (by decide) rfl
  refine ⟨h.1, by rw [h.2.1]; decide, (h.2.2.1 (by decide) (by decide)).1⟩

/-- C4 (amended): when the source or destination address is absent from
the virtualIP table and the pair is not already in the path cache, both
queries return `-1`, `isRoutable` returns `false`, and the state —
path cache included — is unchanged. -/
theorem unattached_query_fails (t : Topology) (a b : Address)
    (hna : vipLookup t a.aip = none ∨ vipLookup t b.aip = none)
    (hc : cacheLookup t a b = none) :
    topology_getLatency t a b = (-1, t)
    ∧ topology_getReliability t a b = (-1, t)
    ∧ topology_isRoutable t a b = (false, t) := by
  have hcp : computePath t a b = none := by
    rcases hsa : vipLookup t a.aip with _ | s
    · simp [computePath, getConnectedVertexIndex, hsa]
    · rcases hsb : vipLookup t b.aip with _ | d
      · simp [computePath, getConnectedVertexIndex, hsa, hsb]
      · rcases hna with h | h
        · rw [hsa] at h; exact absurd h (by simp)
        · rw [hsb] at h; exact absurd h (by simp)
  have h1 : topology_getLatency t a b = (-1, t) := by
    simp [topology_getLatency, getPathEntry, hc, hcp]
  refine ⟨h1, ?_, ?_⟩
  · simp [topology_getReliability, getPathEntry, hc, hcp]
  · rw [topology_isRoutable, h1]
    norm_num

/-- C4 witness: querying from attached h1 to the never-attached address
with IP 4 on the fresh example topology returns `-1`/`false` and leaves
the state unchanged. -/
theorem unattached_query_witness :
    topology_getLatency exTop exAddrA exAddrU = (-1, exTop)
    ∧ topology_getReliability exTop exAddrA exAddrU = (-1, exTop)
    ∧ topology_isRoutable exTop exAddrA exAddrU = (false, exTop) :=
  unattached_query_fails exTop exAddrA exAddrU (Or.inr (by decide)) rfl

/-- C4 counterexample: the claim fails without the cache-miss proviso.
Attach h1 and h2, query once (priming the cache), detach both: the
addresses are absent from the virtualIP table, yet `getLatency`
returns the cached 10, not `-1`. -/
theorem unattached_query_cex :
    vipLookup detachedTop exAddrA.aip = none
    ∧ vipLookup detachedTop exAddrB.aip = none
    ∧ (topology_getLatency detachedTop exAddrA exAddrB).1 = 10
    ∧ ¬((topology_getLatency detachedTop exAddrA exAddrB).1 = -1) := by
  decide

/-- C5: the path cache returns exactly the path stored for a key, and a
repeated query — `getPathEntry`, `getLatency` or `getReliability` — is
stable: it returns the same value as the first and leaves the state the
first query produced untouched, so the first miss is followed only by
hits. -/
theorem repeated_query_stable :
    ∀ (t : Topology) (a b : Address) (p : Path),
      cacheLookup (cacheStore t a b p) a b = some p
      ∧ getPathEntry (getPathEntry t a b).2 a b = getPathEntry t a b
      ∧ topology_getLatency (topology_getLatency t a b).2 a b
          = topology_getLatency t a b
      ∧ topology_getReliability (topology_getReliability t a b).2 a b
          = topology_getReliability t a b := by
  intro t a b p
  refine ⟨cacheLookup_cacheStore t a b p, getPathEntry_idem t a b, ?_, ?_⟩
  · rcases hE : getPathEntry t a b with ⟨r, t2⟩
    have hI := getPathEntry_idem t a b
    rw [hE] at hI
    rcases r with _ | q
    · simp [topology_getLatency, hE, hI]
    · simp [topology_getLatency, hE, hI]
  · rcases hE : getPathEntry t a b with ⟨r, t2⟩
    have hI := getPathEntry_idem t a b
    rw [hE] at hI
    rcases r with _ | q
    · simp [topology_getReliability, hE, hI]
    · simp [topology_getReliability, hE, hI]

/-- C3: `_topology_checkGraphProperties` fails — and hence
`topology_new` returns NULL — whenever the graph is not strongly
connected or has more than one strong cluster; a strongly connected
graph has a single strong cluster and loads successfully. -/
theorem connectivity_gate :
    (∀ g : Graph, isStronglyConnectedB g = false ∨ 1 < clusterCount g →
      topology_new g = none)
    ∧ ∀ g : Graph, isStronglyConnectedB g = true →
        clusterCount g ≤ 1 ∧ (topology_new g).isSome = true := by
  constructor
  · intro g h
    have hchk : checkGraphProperties g = false := by
      rcases h with h | h
      · simp [checkGraphProperties, h]
      · simp [checkGraphProperties, Nat.not_le.mpr h]
    simp [topology_new, hchk]
  · intro g hconn
    have hreach : ∀ u ∈ List.range g.vertices.length,
        ∀ v ∈ List.range g.vertices.length, reaches g u v = true := by
      intro u hu v hv
      exact List.all_eq_true.mp (List.all_eq_true.mp hconn u hu) v hv
    have hscc : ∀ v ∈ List.range g.vertices.length,
        sccOf g v = List.range g.vertices.length := by
      intro v hv
      apply List.filter_eq_self.mpr
      intro u hu
      simp [hreach v hv u hu, hreach u hu v hv]
    have hcc : clusterCount g ≤ 1 := by
      have hmap : (List.range g.vertices.length).map (sccOf g)
          = (List.range g.vertices.length).map
              (fun _ => List.range g.vertices.length) :=
        List.map_congr_left hscc
      rw [clusterCount, hmap]
      have : (List.range g.vertices.length).map
          (fun _ => List.range g.vertices.length)
          = List.replicate (List.range g.vertices.length).length
              (List.range g.vertices.length) := List.map_const _ _
      rw [this]
      exact dedup_replicate_length_le _ _
    refine ⟨hcc, ?_⟩
    have hchk : checkGraphProperties g = true := by
      simp [checkGraphProperties, hconn, hcc]
    simp [topology_new, hchk]

/-- C3 witness: removing both edges of the example graph leaves two
strong clusters, and loading fails; the strongly connected example
graph itself loads. -/
theorem connectivity_gate_witness :
    topology_new discGraph = none ∧ (topology_new exGraph).isSome = true :=
  ⟨connectivity_gate.1 discGraph (Or.inl (by decide)),
   (connectivity_gate.2 exGraph (by decide)).2⟩

/-- C6 (amended): when the hint-filtered candidate set is empty,
`topology_connect` does not return a NoCandidate error to the caller —
the function returns void and has no error channel; instead
`utility_assert(numCandidates > 0)` fails and the process aborts
(modelled as `none`). -/
theorem connect_empty_aborts (t : Topology) (a : Address) (u : ℚ)
    (h : connectCandidates t.graph = []) :
    topology_connect t a u = none := by
  simp [topology_connect, h]

/-- C6 counterexample: on a topology whose only vertex is not a PoI the
candidate set is empty and attach ends in the assertion abort
(`none`): no NoCandidate error value is ever produced. -/
theorem connect_empty_cex :
    connectCandidates noPoiTop.graph = []
    ∧ topology_connect noPoiTop exAddrA (1 / 2) = none := by
  decide

/-- C6 witness: the amended claim applied to the PoI-free topology. -/
theorem connect_empty_aborts_witness :
    topology_connect noPoiTop exAddrB 0 = none :=
  connect_empty_aborts noPoiTop exAddrB 0 (by decide)

/-- C7 (amended): for `N ≥ 1` candidates and RNG draw `u ∈ [0,1)`, the
code pops `round(N·u)` queue entries (a single head pop for `N = 1`)
and keeps the last one popped — the candidate vertex index cast to a
pointer.  The post-selection assertion is not always satisfiable: it
fails, aborting, when `N ≥ 2` and `round(N·u) = 0` (nothing popped),
and also whenever the selected candidate is vertex index 0, because
`GINT_TO_POINTER(0)` is NULL.  When the last-popped entry —
`candidates[round(N·u) − 1]` for `N ≥ 2` with `round(N·u) ≥ 1`, or the
single candidate for `N = 1` — is a nonzero index, the assertion
passes and that entry is a valid member of the candidate set; the code
then dereferences the integer-as-pointer (line 719) instead of using
the value as the index, so no well-defined selection results. -/
theorem candidate_selection (cands : List Nat) (u : ℚ)
    (hu0 : 0 ≤ u) (hu1 : u < 1) (hne : 1 ≤ cands.length) :
    (∀ c, cands = [c] → selectCandidate cands u = gintToPointer c)
    ∧ (2 ≤ cands.length → 1 ≤ roundCount cands.length u →
        roundCount cands.length u ≤ cands.length
        ∧ ∃ i, cands.get? (roundCount cands.length u - 1) = some i
            ∧ i ∈ cands
            ∧ selectCandidate cands u = gintToPointer i)
    ∧ (2 ≤ cands.length → roundCount cands.length u = 0 →
        selectCandidate cands u = none)
    ∧ ∀ i, selectCandidate cands u = some i → i ∈ cands ∧ i ≠ 0 := by
  refine ⟨?_, ?_, ?_, ?_⟩
  · intro c h1
    subst h1
    simp [selectCandidate]
  · intro h2 hcnt
    have hlen : (1 : ℚ) ≤ (cands.length : ℚ) := by
      exact_mod_cast Nat.one_le_iff_ne_zero.mpr (by omega)
    have hup : ((cands.length : ℚ) * u + 1 / 2) < (cands.length : ℚ) + 1 := by
      have hmul : (cands.length : ℚ) * u < (cands.length : ℚ) * 1 := by
        apply mul_lt_mul_of_pos_left hu1
        linarith
      rw [mul_one] at hmul
      linarith
    have hfl : Int.floor ((cands.length : ℚ) * u + 1 / 2) < (cands.length : ℤ) + 1 := by
      apply Int.floor_lt.mpr
      push_cast
      exact hup
    have hcle : roundCount cands.length u ≤ cands.length := by
      rw [roundCount]
      exact Int.toNat_le.mpr (by omega)
    have hidx : roundCount cands.length u - 1 < cands.length := by omega
    have hget := List.get?_eq_get hidx
    have hgt : cands.length > 1 := by omega
    refine ⟨hcle, cands.get ⟨roundCount cands.length u - 1, hidx⟩, hget,
      List.get_mem _ _ hidx, ?_⟩
    rw [selectCandidate, if_pos hgt]
    simp only [if_neg (by omega : ¬roundCount cands.length u = 0), if_pos hcle, hget]
  · intro h2 hcnt
    have hgt : cands.length > 1 := by omega
    rw [selectCandidate, if_pos hgt]
    simp only [hcnt]
    rfl
  · intro i hi
    rw [selectCandidate] at hi
    by_cases hgt : cands.length > 1
    · rw [if_pos hgt] at hi
      by_cases hc0 : roundCount cands.length u = 0
      · rw [if_pos hc0] at hi; cases hi
      · rw [if_neg hc0] at hi
        by_cases hcle : roundCount cands.length u ≤ cands.length
        · rw [if_pos hcle] at hi
          rcases hg : cands.get? (roundCount cands.length u - 1) with _ | j
          · rw [hg] at hi; cases hi
          · rw [hg] at hi
            simp only [gintToPointer] at hi
            by_cases hj : j = 0
            · rw [if_pos hj] at hi; cases hi
            · rw [if_neg hj] at hi
              obtain rfl : j = i := by injection hi
              exact ⟨List.get?_mem hg, hj⟩
        · rw [if_neg hcle] at hi; cases hi
    · rw [if_neg hgt] at hi
      rcases hh : cands.head? with _ | j
      · rw [hh] at hi; cases hi
      · rw [hh] at hi
        simp only [gintToPointer] at hi
        by_cases hj : j = 0
        · rw [if_pos hj] at hi; cases hi
        · rw [if_neg hj] at hi
          obtain rfl : j = i := by injection hi
          obtain ⟨ys, hys⟩ := List.head?_eq_some_iff.mp hh
          rw [hys]
          exact ⟨List.mem_cons_self _ _, hj⟩

/-- C7 counterexample: with the candidate queue `[0, 1]` of the example
graph, RNG draw `u = 0 ∈ [0,1)` pops `round(2·0) = 0` entries, so
`vertexIndexPtr` stays NULL and the validity assertion fails (attach
aborts); and even a "valid" draw `u = 1/2` (one pop) selects candidate
vertex index 0, whose queue entry `GINT_TO_POINTER(0)` is NULL, so the
same assertion fails — contradicting the claim that the post-selection
assertions cannot fail. -/
theorem candidate_selection_cex :
    (connectCandidates exGraph).length = 2
    ∧ selectCandidate (connectCandidates exGraph) 0 = none
    ∧ topology_connect exTop exAddrU 0 = none
    ∧ roundCount (connectCandidates exGraph).length (1 / 2) = 1
    ∧ selectCandidate (connectCandidates exGraph) (1 / 2) = none
    ∧ topology_connect exTop exAddrU (1 / 2) = none := by
  decide

/-- C7 witness: candidates `[3, 7]` and `u = 1/2` give one pop,
selecting queue position 0, the nonzero candidate index 3, which
survives the assertion (`gintToPointer 3 = some 3`). -/
theorem candidate_selection_witness :
    selectCandidate [3, 7] (1 / 2) = some 3 := by
  obtain ⟨hle, i, hget, hmem, hsel⟩ :=
    (candidate_selection [3, 7] (1 / 2) (by norm_num) (by norm_num)
      (by decide)).2.1 (by decide) (by decide)
  have h1 : roundCount ([3, 7] : List Nat).length (1 / 2) = 1 := by decide
  rw [h1] at hget
  have h3 : i = 3 := by simpa using hget.symm
  subst h3
  rw [hsel]
  rfl

/-- Bounds for the fold of a valid walk: non-negative latency and
reliability in `[0,1]`, given in-range attributes. -/
lemma computePathFromVertices_bounds (g : Graph) (s d : Nat) (vs : List Nat) (p : Path)
    (hlat : ∀ e ∈ g.edges, 0 < e.latency)
    (hvp : ∀ v ∈ g.vertices, 0 ≤ v.packetloss ∧ v.packetloss ≤ 1)
    (hep : ∀ e ∈ g.edges, 0 ≤ e.packetloss ∧ e.packetloss ≤ 1)
    (hsn : s < g.vertices.length) (hdn : d < g.vertices.length)
    (hres : computePathFromVertices g s d vs = some p) :
    0 ≤ p.latency ∧ 0 ≤ p.reliability ∧ p.reliability ≤ 1 := by
  have hbs := vertexPloss_complement_bounds g s hsn hvp
  have hbd := vertexPloss_complement_bounds g d hdn hvp
  have hbase : 0 ≤ (1 - vertexPloss g s) * (1 - vertexPloss g d)
      ∧ (1 - vertexPloss g s) * (1 - vertexPloss g d) ≤ 1 :=
    ⟨mul_nonneg hbs.1 hbd.1, mul_le_one₀ hbs.2 hbd.1 hbd.2⟩
  by_cases hl : vs.length < 2
  · simp only [computePathFromVertices, if_pos hl, Option.some.injEq] at hres
    subst hres
    exact ⟨by norm_num, hbase.1, hbase.2⟩
  · simp only [computePathFromVertices, if_neg hl] at hres
    rcases hwe : walkEdges g vs with _ | es
    · rw [hwe] at hres; cases hres
    · rw [hwe] at hres
      simp only [Option.some.injEq] at hres
      subst hres
      have hsub := walkEdges_subset g vs es hwe
      have hsum : 0 ≤ (es.map (fun e => e.latency)).sum := by
        apply list_sum_nonneg
        intro x hx
        obtain ⟨e, he, rfl⟩ := List.mem_map.mp hx
        exact le_of_lt (hlat e (hsub e he))
      have hprod : 0 ≤ (es.map (fun e => 1 - e.packetloss)).prod
          ∧ (es.map (fun e => 1 - e.packetloss)).prod ≤ 1 := by
        apply list_prod_bounds
        intro x hx
        obtain ⟨e, he, rfl⟩ := List.mem_map.mp hx
        have := hep e (hsub e he)
        constructor <;> linarith [this.1, this.2]
      refine ⟨hsum, ?_, ?_⟩
      · exact mul_nonneg hbase.1 hprod.1
      · exact mul_le_one₀ hbase.2 hprod.1 hprod.2

/-- C8: for a fresh query between addresses attached to valid vertices,
if every edge latency is positive and every packetloss attribute lies
in `[0,1]`, then `getLatency ≥ 0` and `getReliability ∈ [0,1]`. -/
theorem query_bounds (t : Topology) (a b : Address) (s d : Nat)
    (hlat : ∀ e ∈ t.graph.edges, 0 < e.latency)
    (hvp : ∀ v ∈ t.graph.vertices, 0 ≤ v.packetloss ∧ v.packetloss ≤ 1)
    (hep : ∀ e ∈ t.graph.edges, 0 ≤ e.packetloss ∧ e.packetloss ≤ 1)
    (hs : vipLookup t a.aip = some s) (hd : vipLookup t b.aip = some d)
    (hsn : s < t.graph.vertices.length) (hdn : d < t.graph.vertices.length)
    (hc : cacheLookup t a b = none) :
    0 ≤ (topology_getLatency t a b).1
    ∧ 0 ≤ (topology_getReliability t a b).1
    ∧ (topology_getReliability t a b).1 ≤ 1 := by
  have hdij : dijkstra t.graph s d
      = some (match chooseMin t.graph (simplePaths t.graph s d) with
              | some vs => vs
              | none => []) := by
    simp [dijkstra, hsn, hdn]
  set vs := (match chooseMin t.graph (simplePaths t.graph s d) with
             | some vs => vs
             | none => []) with hvs
  have hwalk : isWalk t.graph vs = true := by
    rcases hcm : chooseMin t.graph (simplePaths t.graph s d) with _ | vs0
    · rw [hvs, hcm]
      rfl
    · rw [hvs, hcm]
      exact (simplePathsAux_sound t.graph _ s d [] vs0
        (chooseMin_mem t.graph _ vs0 hcm)).2
  have hcpv : (walkEdges t.graph vs).isSome = true :=
    walkEdges_isSome_of_isWalk t.graph vs hwalk
  have hsome : ∃ p, computePathFromVertices t.graph s d vs = some p := by
    by_cases hl : vs.length < 2
    · refine ⟨Path.mk 1 ((1 - vertexPloss t.graph s) * (1 - vertexPloss t.graph d)), ?_⟩
      simp only [computePathFromVertices, if_pos hl]
    · obtain ⟨es, hes⟩ := Option.isSome_iff_exists.mp hcpv
      refine ⟨Path.mk ((es.map (fun e => e.latency)).sum)
        ((1 - vertexPloss t.graph s) * (1 - vertexPloss t.graph d)
          * (es.map (fun e => 1 - e.packetloss)).prod), ?_⟩
      simp only [computePathFromVertices, if_neg hl, hes]
  obtain ⟨p, hp⟩ := hsome
  have hb := computePathFromVertices_bounds t.graph s d vs p hlat hvp hep hsn hdn hp
  have hcp : computePath t a b = some p := by
    simp [computePath, getConnectedVertexIndex, hs, hd, hdij, hp]
  refine ⟨?_, ?_, ?_⟩
  · simpa [topology_getLatency, getPathEntry, hc, hcp] using hb.1
  · simpa [topology_getReliability, getPathEntry, hc, hcp] using hb.2.1
  · simpa [topology_getReliability, getPathEntry, hc, hcp] using hb.2.2

/-- C8 witness: the example topology satisfies all attribute bounds,
and the h1→h2 query returns latency 10 ≥ 0 and reliability
171/250 ∈ [0,1]. -/
theorem query_bounds_witness :
    0 ≤ (topology_getLatency exTop exAddrB exAddrA).1
    ∧ 0 ≤ (topology_getReliability exTop exAddrB exAddrA).1
    ∧ (topology_getReliability exTop exAddrB exAddrA).1 ≤ 1 :=
  query_bounds exTop exAddrB exAddrA 1 0
    (by decide) (by decide) (by decide)
    (by decide) (by decide) (by decide) (by decide) rfl

/-- C9: when the Dijkstra primitive reports a non-success code, or when
an edge of the returned vertex sequence fails to resolve, the query
returns `-1` and the state — in particular the path cache — is
unchanged, so a later retry recomputes. -/
theorem primitive_failure_query (t : Topology) (a b : Address) (s d : Nat)
    (hs : vipLookup t a.aip = some s) (hd : vipLookup t b.aip = some d)
    (hc : cacheLookup t a b = none) :
    (dijkstra t.graph s d = none →
      topology_getLatency t a b = (-1, t)
      ∧ topology_getReliability t a b = (-1, t))
    ∧ ∀ vs, dijkstra t.graph s d = some vs → ¬vs.length < 2 →
        walkEdges t.graph vs = none →
        topology_getLatency t a b = (-1, t)
        ∧ topology_getReliability t a b = (-1, t) := by
  constructor
  · intro hfail
    have hcp : computePath t a b = none := by
      simp [computePath, getConnectedVertexIndex, hs, hd, hfail]
    exact ⟨by simp [topology_getLatency, getPathEntry, hc, hcp],
           by simp [topology_getReliability, getPathEntry, hc, hcp]⟩
  · intro vs hdij hl hwe
    have hcp : computePath t a b = none := by
      simp [computePath, getConnectedVertexIndex, hs, hd, hdij,
        computePathFromVertices, hl, hwe]
    exact ⟨by simp [topology_getLatency, getPathEntry, hc, hcp],
           by simp [topology_getReliability, getPathEntry, hc, hcp]⟩

/-- C9 witness: a virtualIP entry pointing at vertex index 5 of a
one-vertex graph makes the Dijkstra call fail (`IGRAPH_EINVVID`); the
query returns `-1` and the topology, cache included, is unchanged. -/
theorem primitive_failure_witness :
    topology_getLatency badIndexTop ⟨10, 1⟩ ⟨20, 2⟩ = (-1, badIndexTop)
    ∧ topology_getReliability badIndexTop ⟨10, 1⟩ ⟨20, 2⟩ = (-1, badIndexTop) :=
  (primitive_failure_query badIndexTop ⟨10, 1⟩ ⟨20, 2⟩ 5 0
    (by decide) (by decide) rfl).1 (by decide)

/-- C10: `topology_disconnect` removes exactly the given address's
virtualIP entry: afterwards that IP resolves to nothing, every other
IP resolves as before, and the path cache, graph and edge-weight
vector are untouched. -/
theorem disconnect_frame (t : Topology) (a : Address) :
    (topology_disconnect t a).pathCache = t.pathCache
    ∧ (topology_disconnect t a).graph = t.graph
    ∧ (topology_disconnect t a).edgeWeights = t.edgeWeights
    ∧ vipLookup (topology_disconnect t a) a.aip = none
    ∧ ∀ ip, ip ≠ a.aip →
        vipLookup (topology_disconnect t a) ip = vipLookup t ip := by
  refine ⟨rfl, rfl, rfl, ?_, ?_⟩
  · simp only [vipLookup, topology_disconnect]
    rw [find?_key_filter_self]
    rfl
  · intro ip hip
    simp only [vipLookup, topology_disconnect]
    rw [find?_key_filter_other ip a.aip hip]

/-- C10 witness: detaching h1 from the example topology: IP 1 is gone,
IP 2 still maps to vertex 1, and cache, graph and weights survive. -/
theorem disconnect_frame_witness :
    (topology_disconnect exTop exAddrA).pathCache = exTop.pathCache
    ∧ (topology_disconnect exTop exAddrA).graph = exTop.graph
    ∧ (topology_disconnect exTop exAddrA).edgeWeights = exTop.edgeWeights
    ∧ vipLookup (topology_disconnect exTop exAddrA) exAddrA.aip = none
    ∧ vipLookup (topology_disconnect exTop exAddrA) 2 = vipLookup exTop 2 := by
  have h := disconnect_frame exTop exAddrA
  exact ⟨h.1, h.2.1, h.2.2.1, h.2.2.2.1, h.2.2.2.2 2 (by decide)⟩

end Shadow
